import Mathlib

/-!
Shallow embedding of the media-indexing and derived-asset pipeline of
`server.js` (react-liquid-photos), together with theorems checking the
specification's claims about it.

JavaScript strings are modelled as lists of UTF-16 code units
(`List Nat`); JS string comparison (`<`, `>=`) is lexicographic on code
units, which the model mirrors exactly.
-/

namespace LiquidPhotos

/-- A JavaScript string, given by its list of UTF-16 code units. -/
abbrev JStr := List Nat

/-- JS string comparison `a < b`: lexicographic on UTF-16 code units;
a strict prefix sorts before any extension. -/
def jsLtB : JStr → JStr → Bool
  | [], [] => false
  | [], _ :: _ => true
  | _ :: _, [] => false
  | a :: as, b :: bs => if a < b then true else if b < a then false else jsLtB as bs

/-- The code unit of JS `'￿'`, appended by the code to form the upper
bound of the folder range; it sorts after every valid path character. -/
def SENTINEL : Nat := 0xFFFF

/-- From `server.js` (`inScope`): `folder >= lower && folder < upper` where
`lower = scope` and `upper = lower + '￿'`.  JS `x >= y` on strings is
the negation of `x < y`. -/
def inScope (scope folder : JStr) : Bool :=
  !jsLtB folder scope && jsLtB folder (scope ++ [SENTINEL])

/-! Concrete code-unit strings used by witnesses and counterexamples. -/

/-- Code units of "photos". -/
def photosU : JStr := [112, 104, 111, 116, 111, 115]

/-- Code units of "photos2": a sibling of "photos" that shares it as a
string prefix but not as a path segment. -/
def photos2U : JStr := photosU ++ [50]

/-- Code units of "other". -/
def otherU : JStr := [111, 116, 104, 101, 114]

/-- Code units of "private". -/
def privateU : JStr := [112, 114, 105, 118, 97, 116, 101]

/-- Code units of "A". -/
def folderAU : JStr := [65]

/-- Code units of "A/1.jpg". -/
def pathA1U : JStr := [65, 47, 49, 46, 106, 112, 103]

/-- Code units of "A/2.jpg". -/
def pathA2U : JStr := [65, 47, 50, 46, 106, 112, 103]

/-- Code units of "a". -/
def dirAU : JStr := [97]

/-- Code units of "a/b/c". -/
def dirABCU : JStr := [97, 47, 98, 47, 99]

/-! Indexer: rows, stale-row pruning and the scan loop
(`scanAndIndex` / `scanAndIndexUnder` in server.js). -/

/-- An indexed row of the `images` table (the fields the claims touch). -/
structure Row where
  path : JStr
  folder : JStr
  deriving DecidableEq, Repr

/-- A filesystem entry produced by the glob walk: its relative path and
folder, whether its extension classifies as media, and whether `fsp.stat`
succeeds on it. -/
structure Entry where
  path : JStr
  folder : JStr
  isMedia : Bool
  statOk : Bool
  deriving DecidableEq, Repr

/-- Stale-row pruning of `scanAndIndexUnder`: rows with
`folder >= effective AND folder < effective + '￿'` whose path was not
observed this pass are deleted; the resulting table keeps a row iff it
is out of range or observed. -/
def pruneUnder (effective : JStr) (rows : List Row) (scanned : List JStr) : List Row :=
  rows.filter (fun r => !(inScope effective r.folder && !scanned.contains r.path))

/-- Stale-row pruning of the full `scanAndIndex`: every row whose path was
not observed this pass is deleted. -/
def pruneAll (rows : List Row) (scanned : List JStr) : List Row :=
  rows.filter (fun r => scanned.contains r.path)

/-- The set of paths observed by the scan loop when the cooperative cancel
flag is first seen at iteration `k` (the loop `break`s there, so exactly
the media entries among the first `k` glob results are observed). -/
def scannedPrefix (entries : List Entry) (k : Nat) : List JStr :=
  (((entries.take k).filter (fun e => e.isMedia && e.statOk)).map (fun e => e.path))

/-- Insert-or-update by path (`INSERT ... ON CONFLICT(path) DO UPDATE`). -/
def upsertRow (rows : List Row) (e : Entry) : List Row :=
  if rows.any (fun r => r.path == e.path) then
    rows.map (fun r => if r.path == e.path then { path := e.path, folder := e.folder } else r)
  else rows ++ [{ path := e.path, folder := e.folder }]

/-- A full scan whose cancel flag is first observed at loop iteration `k`:
the walk upserts the observed media rows, then the stale-row pruning runs
over the entire table regardless of cancellation. -/
def scanAndIndexModel (rows0 : List Row) (entries : List Entry) (k : Nat) : List Row :=
  let walked := (entries.take k).filter (fun e => e.isMedia && e.statOk)
  let rows1 := walked.foldl upsertRow rows0
  pruneAll rows1 (scannedPrefix entries k)

/-! Scan-job registry (`currentIndexJob`, `beginIndexJob`, the
`POST /api/index` route). -/

/-- The scan-job registry value `{token, cancel, running}`. -/
structure IndexJob where
  token : Nat
  cancel : Bool
  running : Bool
  deriving DecidableEq, Repr

/-- From server.js `beginIndexJob`: returns `null` if a job is running,
otherwise replaces the registry with a fresh running job.  The second
component is the registry after the call. -/
def beginIndexJob (cur : IndexJob) (now : Nat) : Option IndexJob × IndexJob :=
  if cur.running then (none, cur)
  else (some { token := now, cancel := false, running := true },
        { token := now, cancel := false, running := true })

/-- Response of the `POST /api/index` route. -/
inductive IndexResponse
  | conflict
  | started (job : IndexJob)
  deriving DecidableEq, Repr

/-- The `POST /api/index` route: 409 when a job is running (checked both
directly and through `beginIndexJob` returning `null`), otherwise the
fresh job starts. -/
def postIndex (cur : IndexJob) (now : Nat) : IndexResponse × IndexJob :=
  if cur.running then (.conflict, cur)
  else
    match beginIndexJob cur now with
    | (none, c) => (.conflict, c)
    | (some j, _) => (.started j, j)

/-! Path-scoped rescan target resolution (`scanAndIndexUnder`, the
walk-up-on-missing-prefix logic). -/

/-- Index of the last `'/'` (code unit 47) in a path, as in JS
`lastIndexOf('/')` returning `-1`-as-`none`. -/
def lastIndexOfSlash : JStr → Option Nat
  | [] => none
  | c :: cs =>
    match lastIndexOfSlash cs with
    | some i => some (i + 1)
    | none => if c = 47 then some 0 else none

/-- JS `idx >= 0 ? effective.slice(0, idx) : ''`. -/
def parentOf (pfx : JStr) : JStr :=
  match lastIndexOfSlash pfx with
  | some i => pfx.take i
  | none => []

/-- What a path-scoped rescan ends up doing. -/
inductive ScanTarget
  | fullScan
  | under (effective : JStr)
  deriving DecidableEq, Repr

/-- The prefix-resolution logic of `scanAndIndexUnder`, with `dirs` the set
of directories that exist on disk: an empty prefix means a full scan;
a missing prefix falls back to its immediate parent only when that parent
exists; a missing top-level prefix falls back to a full scan; otherwise
the missing prefix itself is scanned. -/
def resolveScanTarget (dirs : List JStr) (pfx : JStr) : ScanTarget :=
  if pfx.isEmpty then .fullScan
  else
    let effective :=
      if dirs.contains pfx then pfx
      else if !(parentOf pfx).isEmpty && dirs.contains (parentOf pfx) then parentOf pfx
      else if (parentOf pfx).isEmpty then ([] : JStr)
      else pfx
    if effective.isEmpty then .fullScan else .under effective

/-! Derived-asset pipeline (`ensureThumb`, `ensureView`,
`ensureRawEmbeddedPreview`, `ensureHeicDecodedPreview`,
`ensureFfmpegImagePreview`, `ensureVideoThumb`). -/

/-- The embedded-preview tags tried by `ensureRawEmbeddedPreview`, in
source order. -/
inductive RawTag
  | JpgFromRaw
  | PreviewImage
  | OtherImage
  | OtherImage1
  | OtherImage2
  | OtherImage3
  | ThumbnailImage
  deriving DecidableEq, Repr

/-- The ordered tag list of `ensureRawEmbeddedPreview`: full raw-JPEG
preview first, generic preview, the alternate-image slots, thumbnail last. -/
def rawTags : List RawTag :=
  [.JpgFromRaw, .PreviewImage, .OtherImage, .OtherImage1, .OtherImage2,
   .OtherImage3, .ThumbnailImage]

/-- The extraction loop: each tag costs one exiftool invocation; a tag is
accepted when extraction writes bytes with exit 0 (`ex`) and sharp can read
the result (`de`); the first accepted tag wins.  Returns the accepted tag
and the number of exiftool invocations. -/
def tryTags (ex de : RawTag → Bool) : List RawTag → Option RawTag × Nat
  | [] => (none, 0)
  | t :: ts =>
    if ex t && de t then (some t, 1)
    else
      match tryTags ex de ts with
      | (r, n) => (r, n + 1)

/-- Which stage produced the bytes of a cached rendition file. -/
inductive ThumbSrc
  | direct
  | fromRaw (t : RawTag)
  | fromHeic
  | fromFfmpegImg
  | videoFrame
  deriving DecidableEq, Repr

/-- What `ensureThumb` / `ensureView` return: the keyed cache file in the
thumbs directory, the keyed cache file in the views directory, or the
original source path (the catch-all fallback). -/
inductive RendRes
  | thumbFile (c : ThumbSrc)
  | viewFile (c : ThumbSrc)
  | original
  deriving DecidableEq, Repr

/-- Per-source oracles: whether each decode/extract step of the pipeline
succeeds on this source.  External tools are deterministic while the
source is not mutated.  `vA`‥`vD` are the four ffmpeg video-thumbnail
variants; `sharpTmpOk` is the sharp jpeg→webp conversion of the frame. -/
structure Src where
  isVideo : Bool
  isRaw : Bool
  isHeic : Bool
  sharpDirectOk : Bool
  extOk : RawTag → Bool
  decOk : RawTag → Bool
  heicOk : Bool
  ffmpegImgOk : Bool
  vA : Bool
  vB : Bool
  vC : Bool
  vD : Bool
  sharpTmpOk : Bool

/-- The cache-relevant filesystem state for one source: the keyed thumb
and view outputs (with the provenance of their bytes), the cached RAW
embedded preview (with the tag it came from), and the HEIC / ffmpeg
intermediate previews. -/
structure FS where
  thumbOut : Option ThumbSrc
  viewOut : Option ThumbSrc
  rawPrev : Option RawTag
  heicPrev : Bool
  ffPrev : Bool

/-- `ensureRawEmbeddedPreview`: return the cached preview if present,
otherwise run the tag loop; a successful extraction is cached.  The last
component counts external (exiftool) invocations. -/
def ensureRawEmbeddedPreviewM (src : Src) (fs : FS) : Option RawTag × FS × Nat :=
  match fs.rawPrev with
  | some t => (some t, fs, 0)
  | none =>
    match tryTags src.extOk src.decOk rawTags with
    | (some t, n) => (some t, { fs with rawPrev := some t }, n)
    | (none, n) => (none, fs, n)

/-- `ensureHeicDecodedPreview`: cached, or one heif-convert invocation. -/
def ensureHeicDecodedPreviewM (src : Src) (fs : FS) : Bool × FS × Nat :=
  if fs.heicPrev then (true, fs, 0)
  else if src.heicOk then (true, { fs with heicPrev := true }, 1)
  else (false, fs, 1)

/-- `ensureFfmpegImagePreview`: cached, or one ffmpeg invocation; the
output is unlinked on failure, so nothing is cached then. -/
def ensureFfmpegImagePreviewM (src : Src) (fs : FS) : Bool × FS × Nat :=
  if fs.ffPrev then (true, fs, 0)
  else if src.ffmpegImgOk then (true, { fs with ffPrev := true }, 1)
  else (false, fs, 1)

/-- `ensureVideoThumb`: ffmpeg variants A, B, C write a temp jpeg (then
sharp converts it), variant D writes the webp directly; a variant is tried
only when the previous ones produced no file; exhaustion throws.  The
count is the number of ffmpeg invocations. -/
def videoThumbM (src : Src) : Except Unit ThumbSrc × Nat :=
  if src.vA then (if src.sharpTmpOk then (.ok .videoFrame, 1) else (.error (), 1))
  else if src.vB then (if src.sharpTmpOk then (.ok .videoFrame, 2) else (.error (), 2))
  else if src.vC then (if src.sharpTmpOk then (.ok .videoFrame, 3) else (.error (), 3))
  else if src.vD then (.ok .videoFrame, 4)
  else (.error (), 4)

/-- The still-image fallback chain shared by `ensureThumb` and
`ensureView` (they differ only in target width and webp quality, which do
not change which stage succeeds): sharp directly, else the RAW embedded
preview, else sharp-then-heif-convert for HEIC, else the ffmpeg image
fallback; a missing preview re-throws.  The sharp resize of a preview the
external tool produced (and, for RAW, sharp itself validated) succeeds. -/
def stillInner (src : Src) (fs : FS) : Except Unit ThumbSrc × FS × Nat :=
  if src.sharpDirectOk then (.ok .direct, fs, 0)
  else if src.isRaw then
    match ensureRawEmbeddedPreviewM src fs with
    | (some t, fs1, n) => (.ok (.fromRaw t), fs1, n)
    | (none, fs1, n) => (.error (), fs1, n)
  else if src.isHeic then
    if src.sharpDirectOk then (.ok .direct, fs, 0)
    else
      match ensureHeicDecodedPreviewM src fs with
      | (true, fs1, n) => (.ok .fromHeic, fs1, n)
      | (false, fs1, n) => (.error (), fs1, n)
  else
    match ensureFfmpegImagePreviewM src fs with
    | (true, fs1, n) => (.ok .fromFfmpegImg, fs1, n)
    | (false, fs1, n) => (.error (), fs1, n)

/-- The body of `ensureThumb`'s outer `try` (the cache miss path). -/
def ensureThumbInner (src : Src) (fs : FS) : Except Unit ThumbSrc × FS × Nat :=
  if src.isVideo then
    match videoThumbM src with
    | (r, n) => (r, fs, n)
  else stillInner src fs

/-- `ensureThumb`: if the keyed output exists return it immediately;
otherwise run the chain, write the output on success, and on any error
fall back to returning the original source path. -/
def ensureThumb (src : Src) (fs : FS) : RendRes × FS × Nat :=
  match fs.thumbOut with
  | some c => (.thumbFile c, fs, 0)
  | none =>
    match ensureThumbInner src fs with
    | (.ok c, fs1, n) => (.thumbFile c, { fs1 with thumbOut := some c }, n)
    | (.error _, fs1, n) => (.original, fs1, n)

/-- `ensureView`: if the keyed view exists return it immediately; for a
video, return the thumbnail as poster (never a resized video); otherwise
run the still-image chain, writing the view on success; on any error fall
back to the original source path. -/
def ensureView (src : Src) (fs : FS) : RendRes × FS × Nat :=
  match fs.viewOut with
  | some c => (.viewFile c, fs, 0)
  | none =>
    if src.isVideo then ensureThumb src fs
    else
      match stillInner src fs with
      | (.ok c, fs1, n) => (.viewFile c, { fs1 with viewOut := some c }, n)
      | (.error _, fs1, n) => (.original, fs1, n)

/-- Every stage of the fallback chain fails for this source. -/
def allFailB (src : Src) : Bool :=
  if src.isVideo then !src.vA && !src.vB && !src.vC && !src.vD
  else
    !src.sharpDirectOk &&
      (if src.isRaw then rawTags.all (fun t => !(src.extOk t && src.decOk t))
       else if src.isHeic then !src.heicOk
       else !src.ffmpegImgOk)

/-- The empty cache state (fresh source, nothing generated yet). -/
def fsEmpty : FS :=
  { thumbOut := none, viewOut := none, rawPrev := none, heicPrev := false,
    ffPrev := false }

/-- A plain (non-RAW, non-HEIC, non-video) image that neither sharp nor
the ffmpeg fallback can decode. -/
def srcPlainBroken : Src :=
  { isVideo := false, isRaw := false, isHeic := false, sharpDirectOk := false,
    extOk := fun _ => false, decOk := fun _ => false, heicOk := false,
    ffmpegImgOk := false, vA := false, vB := false, vC := false, vD := false,
    sharpTmpOk := false }

/-- A plain image sharp decodes directly. -/
def srcSharpOk : Src :=
  { srcPlainBroken with sharpDirectOk := true }

/-- A RAW source sharp cannot decode directly, whose first six embedded
preview tags are invalid and whose last tag (ThumbnailImage) is valid. -/
def srcRawLastTag : Src :=
  { srcPlainBroken with
    isRaw := true,
    extOk := fun t => match t with | .ThumbnailImage => true | _ => false,
    decOk := fun t => match t with | .ThumbnailImage => true | _ => false }

/-! Adaptive video segmenter (the `/hls/:id/:height.m3u8` rung-playlist
route and the `/hls/seg/:key/:file` and `/s/hls/seg/:key/:file` segment
routes). -/

/-- The requesting principal, as resolved by the auth layer. -/
structure Principal where
  rootPath : JStr
  deriving DecidableEq, Repr

/-- Response of a segment route. -/
inductive SegResponse
  | ok
  | notFound
  | unauthorized
  deriving DecidableEq, Repr

/-- The `/hls/seg/:key/:file` handler: `requireAuth`, then serve the file
at `HLS_DIR/key/file` if it exists, else 404.  No row is looked up and no
scope predicate is evaluated. -/
def hlsSegHandler (user : Option Principal) (segExists : Bool) : SegResponse :=
  match user with
  | none => .unauthorized
  | some _ => if segExists then .ok else .notFound

/-- The share-link `/s/hls/seg/:key/:file` handler: no auth middleware and
no ownership check; serve the file if it exists. -/
def shareSegHandler (segExists : Bool) : SegResponse :=
  if segExists then .ok else .notFound

/-- The observable state for one `(source, height)` key: whether
`index.m3u8` exists, and how many encoder processes are running. -/
structure HlsKeyState where
  playlistExists : Bool
  encoders : Nat
  deriving DecidableEq, Repr

/-- What a rung-playlist request does besides responding. -/
inductive HlsAction
  | servePlaylist
  | spawnEncoder
  deriving DecidableEq, Repr

/-- One `/hls/:id/:height.m3u8` request for the key (scope and kind checks
already passed): if the playlist file exists serve it, otherwise create
the directory and spawn an ffmpeg segmenter, then poll.  There is no
in-memory per-key guard consulted anywhere on this path. -/
def rungRequest (s : HlsKeyState) : HlsAction × HlsKeyState :=
  if s.playlistExists then (.servePlaylist, s)
  else (.spawnEncoder, { s with encoders := s.encoders + 1 })

/-- `n` requests for the same key arriving before the encoder has written
the playlist. -/
def runRequests : Nat → HlsKeyState → HlsKeyState
  | 0, s => s
  | n + 1, s => runRequests n (rungRequest s).2

theorem jsLtB_irrefl (l : JStr) : jsLtB l l = false := by
  induction l with
  | nil => rfl
  | cons a as ih => simp [jsLtB, ih]

theorem jsLtB_append_left (l t : JStr) : jsLtB (l ++ t) l = false := by
  induction l with
  | nil => cases t <;> rfl
  | cons a as ih => simp [jsLtB, ih]

theorem jsLtB_append_right (l : JStr) (t : JStr) (ht : t ≠ []) :
    jsLtB l (l ++ t) = true := by
  induction l with
  | nil => cases t with
    | nil => exact absurd rfl ht
    | cons c cs => rfl
  | cons a as ih => simp [jsLtB, ih]

theorem jsLtB_append_lt (l : JStr) (a b : Nat) (as bs : JStr) (h : a < b) :
    jsLtB (l ++ a :: as) (l ++ b :: bs) = true := by
  induction l with
  | nil => simp [jsLtB, h]
  | cons c cs ih => simp [jsLtB, ih]

/-- Characterization of the code's scope predicate: for folders whose code
units all lie below the sentinel, `inScope scope folder` holds exactly when
`scope` is a *string* prefix of `folder` (not a path-segment prefix). -/
theorem inScope_iff_isPrefix (f s : JStr) (hs : s.all (fun c => c < SENTINEL) = true) :
    inScope f s = true ↔ f <+: s := by
  induction f generalizing s with
  | nil =>
    simp only [inScope, List.nil_append]
    constructor
    · intro _; exact List.nil_prefix
    · intro _
      cases s with
      | nil => rfl
      | cons c cs =>
        have hc : c < SENTINEL := by
          have := hs
          simp [List.all_cons] at this
          exact this.1
        simp [jsLtB, hc]
  | cons a as ih =>
    cases s with
    | nil =>
      simp only [inScope]
      constructor
      · intro h; simp [jsLtB] at h
      · intro h
        have : (a :: as : JStr) = [] := List.prefix_nil.mp h
        exact absurd this (by simp)
    | cons b bs =>
      have hbs : bs.all (fun c => c < SENTINEL) = true := by
        rw [List.all_cons] at hs
        exact ((Bool.and_eq_true _ _).mp hs).2
      rcases Nat.lt_trichotomy a b with hab | hab | hab
      · constructor
        · intro h
          exfalso
          simp [inScope, jsLtB, hab, Nat.lt_asymm hab] at h
        · intro h
          have := (List.cons_prefix_cons.mp h).1
          exact absurd this (Nat.ne_of_lt hab)
      · subst hab
        have hstep : inScope (a :: as) (a :: bs) = inScope as bs := by
          simp [inScope, jsLtB]
        rw [hstep, ih bs hbs, List.cons_prefix_cons]
        simp
      · constructor
        · intro h
          exfalso
          simp [inScope, jsLtB, hab, Nat.lt_asymm hab] at h
        · intro h
          have := (List.cons_prefix_cons.mp h).1
          exact absurd this.symm (Nat.ne_of_lt hab)

theorem tryTags_eq_find (ex de : RawTag → Bool) (l : List RawTag) :
    (tryTags ex de l).1 = l.find? (fun t => ex t && de t) := by
  induction l with
  | nil => rfl
  | cons t ts ih =>
    by_cases h : (ex t && de t) = true
    · simp [tryTags, h, List.find?_cons_of_pos]
    · rw [Bool.not_eq_true] at h
      simp [tryTags, h, List.find?_cons_of_neg, ih]

theorem tryTags_none (ex de : RawTag → Bool) (l : List RawTag)
    (h : l.all (fun t => !(ex t && de t)) = true) :
    (tryTags ex de l).1 = none := by
  induction l with
  | nil => rfl
  | cons t ts ih =>
    rw [List.all_cons] at h
    have h1 := ((Bool.and_eq_true _ _).mp h).1
    have h2 := ((Bool.and_eq_true _ _).mp h).2
    rw [Bool.not_eq_true'] at h1
    simp [tryTags, h1, ih h2]

theorem rawPreviewM_fsEq (src : Src) (fs : FS) :
    ((ensureRawEmbeddedPreviewM src fs).2.1.thumbOut = fs.thumbOut)
    ∧ ((ensureRawEmbeddedPreviewM src fs).2.1.viewOut = fs.viewOut) := by
  unfold ensureRawEmbeddedPreviewM
  cases hp : fs.rawPrev with
  | some t => exact ⟨rfl, rfl⟩
  | none =>
    generalize tryTags src.extOk src.decOk rawTags = q
    obtain ⟨r, n⟩ := q
    cases r with
    | some t => exact ⟨rfl, rfl⟩
    | none => exact ⟨rfl, rfl⟩

theorem heicPreviewM_fsEq (src : Src) (fs : FS) :
    ((ensureHeicDecodedPreviewM src fs).2.1.thumbOut = fs.thumbOut)
    ∧ ((ensureHeicDecodedPreviewM src fs).2.1.viewOut = fs.viewOut) := by
  unfold ensureHeicDecodedPreviewM
  split
  · exact ⟨rfl, rfl⟩
  · split
    · exact ⟨rfl, rfl⟩
    · exact ⟨rfl, rfl⟩

theorem ffPreviewM_fsEq (src : Src) (fs : FS) :
    ((ensureFfmpegImagePreviewM src fs).2.1.thumbOut = fs.thumbOut)
    ∧ ((ensureFfmpegImagePreviewM src fs).2.1.viewOut = fs.viewOut) := by
  unfold ensureFfmpegImagePreviewM
  split
  · exact ⟨rfl, rfl⟩
  · split
    · exact ⟨rfl, rfl⟩
    · exact ⟨rfl, rfl⟩

theorem stillInner_fsEq (src : Src) (fs : FS) :
    ((stillInner src fs).2.1.thumbOut = fs.thumbOut)
    ∧ ((stillInner src fs).2.1.viewOut = fs.viewOut) := by
  unfold stillInner
  by_cases hsd : src.sharpDirectOk = true
  · rw [if_pos hsd]
    exact ⟨rfl, rfl⟩
  · rw [if_neg hsd]
    by_cases hr : src.isRaw = true
    · rw [if_pos hr]
      have h1 := (rawPreviewM_fsEq src fs).1
      have h2 := (rawPreviewM_fsEq src fs).2
      generalize hq : ensureRawEmbeddedPreviewM src fs = q at h1 h2 ⊢
      obtain ⟨p, fs1, n⟩ := q
      cases p with
      | some t => exact ⟨h1, h2⟩
      | none => exact ⟨h1, h2⟩
    · rw [if_neg hr]
      by_cases hh : src.isHeic = true
      · rw [if_pos hh, if_neg hsd]
        have h1 := (heicPreviewM_fsEq src fs).1
        have h2 := (heicPreviewM_fsEq src fs).2
        generalize hq : ensureHeicDecodedPreviewM src fs = q at h1 h2 ⊢
        obtain ⟨b, fs1, n⟩ := q
        cases b with
        | true => exact ⟨h1, h2⟩
        | false => exact ⟨h1, h2⟩
      · rw [if_neg hh]
        have h1 := (ffPreviewM_fsEq src fs).1
        have h2 := (ffPreviewM_fsEq src fs).2
        generalize hq : ensureFfmpegImagePreviewM src fs = q at h1 h2 ⊢
        obtain ⟨b, fs1, n⟩ := q
        cases b with
        | true => exact ⟨h1, h2⟩
        | false => exact ⟨h1, h2⟩

theorem ensureThumbInner_viewOut (src : Src) (fs : FS) :
    (ensureThumbInner src fs).2.1.viewOut = fs.viewOut := by
  unfold ensureThumbInner
  by_cases hv : src.isVideo = true
  · rw [if_pos hv]
  · rw [if_neg hv]
    exact (stillInner_fsEq src fs).2

theorem ensureThumb_cached (src : Src) (fs : FS) (c : ThumbSrc)
    (h : fs.thumbOut = some c) :
    ensureThumb src fs = (.thumbFile c, fs, 0) := by
  unfold ensureThumb
  rw [h]

theorem ensureThumb_thumbOut (src : Src) (fs : FS) (c : ThumbSrc)
    (h : (ensureThumb src fs).1 = .thumbFile c) :
    (ensureThumb src fs).2.1.thumbOut = some c := by
  unfold ensureThumb at h ⊢
  cases hout : fs.thumbOut with
  | some c0 =>
    rw [hout] at h
    simp at h
    simp [hout, h]
  | none =>
    rw [hout] at h
    generalize hinner : ensureThumbInner src fs = q at h ⊢
    obtain ⟨r, fs1, n⟩ := q
    cases r with
    | ok c1 =>
      simp at h
      simp [h]
    | error e => simp at h

theorem ensureThumb_viewOut (src : Src) (fs : FS) :
    (ensureThumb src fs).2.1.viewOut = fs.viewOut := by
  unfold ensureThumb
  cases hout : fs.thumbOut with
  | some c0 => rfl
  | none =>
    have hv := ensureThumbInner_viewOut src fs
    generalize hinner : ensureThumbInner src fs = q at hv ⊢
    obtain ⟨r, fs1, n⟩ := q
    cases r with
    | ok c1 => simpa using hv
    | error e => simpa using hv

theorem ensureThumb_res_cases (src : Src) (fs : FS) :
    (∃ c, (ensureThumb src fs).1 = .thumbFile c) ∨ (ensureThumb src fs).1 = .original := by
  unfold ensureThumb
  cases hout : fs.thumbOut with
  | some c0 => exact Or.inl ⟨c0, rfl⟩
  | none =>
    generalize hinner : ensureThumbInner src fs = q
    obtain ⟨r, fs1, n⟩ := q
    cases r with
    | ok c1 => exact Or.inl ⟨c1, rfl⟩
    | error e => exact Or.inr rfl

theorem ensureThumb_of_inner_error (src : Src) (fs : FS)
    (hout : fs.thumbOut = none)
    (herr : (ensureThumbInner src fs).1 = .error ()) :
    (ensureThumb src fs).1 = .original := by
  unfold ensureThumb
  rw [hout]
  generalize hinner : ensureThumbInner src fs = q at herr ⊢
  obtain ⟨r, fs1, n⟩ := q
  cases r with
  | ok c1 => simp at herr
  | error e => rfl

theorem ensureView_cached (src : Src) (fs : FS) (c : ThumbSrc)
    (h : fs.viewOut = some c) :
    ensureView src fs = (.viewFile c, fs, 0) := by
  unfold ensureView
  rw [h]

theorem ensureView_video (src : Src) (fs : FS)
    (h : fs.viewOut = none) (hv : src.isVideo = true) :
    ensureView src fs = ensureThumb src fs := by
  unfold ensureView
  rw [h, if_pos hv]

theorem ensureView_viewOut (src : Src) (fs : FS) (c : ThumbSrc)
    (h : (ensureView src fs).1 = .viewFile c) :
    (ensureView src fs).2.1.viewOut = some c := by
  unfold ensureView at h ⊢
  cases hv : fs.viewOut with
  | some c0 =>
    rw [hv] at h
    simp at h
    simp [hv, h]
  | none =>
    rw [hv] at h
    by_cases hvid : src.isVideo = true
    · rw [if_pos hvid] at h ⊢
      rcases ensureThumb_res_cases src fs with ⟨c1, hc⟩ | horig
      · rw [hc] at h
        simp at h
      · rw [horig] at h
        simp at h
    · rw [if_neg hvid] at h ⊢
      generalize hst : stillInner src fs = q at h ⊢
      obtain ⟨r, fs1, n⟩ := q
      cases r with
      | ok c1 =>
        simp at h
        simp [h]
      | error e => simp at h

theorem ensureView_res_cases (src : Src) (fs : FS)
    (h : fs.viewOut = none) (hnv : src.isVideo = false) :
    (∃ c, (ensureView src fs).1 = .viewFile c) ∨ (ensureView src fs).1 = .original := by
  unfold ensureView
  rw [h, if_neg (by simp [hnv])]
  generalize hst : stillInner src fs = q
  obtain ⟨r, fs1, n⟩ := q
  cases r with
  | ok c1 => exact Or.inl ⟨c1, rfl⟩
  | error e => exact Or.inr rfl

theorem stillInner_error_of_fail (src : Src) (fs : FS)
    (h3 : fs.rawPrev = none) (h4 : fs.heicPrev = false) (h5 : fs.ffPrev = false)
    (hv : src.isVideo = false) (hfail : allFailB src = true) :
    (stillInner src fs).1 = .error () := by
  unfold allFailB at hfail
  rw [if_neg (by simp [hv])] at hfail
  have hand := (Bool.and_eq_true _ _).mp hfail
  have hsd : src.sharpDirectOk = false := by simpa using hand.1
  have hrest := hand.2
  unfold stillInner
  rw [if_neg (by simp [hsd])]
  by_cases hr : src.isRaw = true
  · rw [if_pos hr]
    rw [if_pos hr] at hrest
    have hnone := tryTags_none src.extOk src.decOk rawTags hrest
    unfold ensureRawEmbeddedPreviewM
    rw [h3]
    generalize htq : tryTags src.extOk src.decOk rawTags = q at hnone ⊢
    obtain ⟨rr, n⟩ := q
    simp at hnone
    subst hnone
    rfl
  · rw [if_neg hr]
    rw [if_neg hr] at hrest
    by_cases hh : src.isHeic = true
    · rw [if_pos hh]
      rw [if_pos hh] at hrest
      have hheic : src.heicOk = false := by simpa using hrest
      rw [if_neg (by simp [hsd])]
      unfold ensureHeicDecodedPreviewM
      rw [if_neg (by simp [h4]), if_neg (by simp [hheic])]
    · rw [if_neg hh]
      rw [if_neg hh] at hrest
      have hff : src.ffmpegImgOk = false := by simpa using hrest
      unfold ensureFfmpegImagePreviewM
      rw [if_neg (by simp [h5]), if_neg (by simp [hff])]

theorem videoThumbM_error_of_fail (src : Src)
    (hA : src.vA = false) (hB : src.vB = false) (hC : src.vC = false)
    (hD : src.vD = false) :
    videoThumbM src = (.error (), 4) := by
  unfold videoThumbM
  rw [if_neg (by simp [hA]), if_neg (by simp [hB]), if_neg (by simp [hC]),
    if_neg (by simp [hD])]

theorem thumbInner_error_of_fail (src : Src) (fs : FS)
    (h3 : fs.rawPrev = none) (h4 : fs.heicPrev = false) (h5 : fs.ffPrev = false)
    (hfail : allFailB src = true) :
    (ensureThumbInner src fs).1 = .error () := by
  unfold ensureThumbInner
  by_cases hv : src.isVideo = true
  · rw [if_pos hv]
    unfold allFailB at hfail
    rw [if_pos hv] at hfail
    simp only [Bool.and_eq_true, Bool.not_eq_true'] at hfail
    obtain ⟨⟨⟨hA, hB⟩, hC⟩, hD⟩ := hfail
    rw [videoThumbM_error_of_fail src hA hB hC hD]
  · rw [if_neg hv]
    exact stillInner_error_of_fail src fs h3 h4 h5 (by simpa using hv) hfail

/-! Claim theorems. -/

/-- C1 (amended): for every folder `f`, `withinScope(f, f)` and
`withinScope(f, f + "/x")` are true; and for folders over valid path code
units, `withinScope(f, s)` holds exactly when `f` is a *string* prefix of
`s` — so a sibling that does not share `f` as a string prefix (such as
"other" for "photos") is rejected, while a sibling that shares `f` as a
string prefix without sharing it as a path segment (such as "photos2") is
accepted. -/
theorem C1_scope_amended (f x s : JStr) (hs : s.all (fun c => c < SENTINEL) = true) :
    inScope f f = true ∧ inScope f (f ++ 47 :: x) = true
    ∧ (inScope f s = true ↔ f <+: s) := by
  refine ⟨?_, ?_, inScope_iff_isPrefix f s hs⟩
  · have h1 : jsLtB f (f ++ [SENTINEL]) = true :=
      jsLtB_append_right f [SENTINEL] (by simp)
    simp [inScope, jsLtB_irrefl, h1]
  · have h2 : jsLtB (f ++ 47 :: x) f = false := jsLtB_append_left f (47 :: x)
    have h3 : jsLtB (f ++ 47 :: x) (f ++ [SENTINEL]) = true :=
      jsLtB_append_lt f 47 SENTINEL x [] (by norm_num [SENTINEL])
    simp [inScope, h2, h3]

/-- C1 witness: instantiation at f = "photos", x = "x", s = "other". -/
theorem C1_scope_witness :
    (otherU.all (fun c => c < SENTINEL) = true)
    ∧ (inScope photosU photosU = true ∧ inScope photosU (photosU ++ 47 :: [120]) = true
        ∧ (inScope photosU otherU = true ↔ photosU <+: otherU)) :=
  ⟨by decide, C1_scope_amended photosU [120] otherU (by decide)⟩

/-- C1 counterexample: "photos2" is a sibling of "photos" that does not
share it as a prefix segment (it differs from "photos" and does not start
with "photos/"), yet `inScope "photos" "photos2"` is true, contradicting
the claim that such a sibling is rejected. -/
theorem C1_scope_counterexample :
    inScope photosU photos2U = true ∧ photos2U ≠ photosU
    ∧ ¬ (photosU ++ [47]) <+: photos2U := by
  refine ⟨by decide, by decide, by decide⟩

/-- C2 counterexample: a principal scoped to "photos" requests a segment
whose parent item lives in folder "private" — outside the scope, as the
second conjunct shows — and the handler serves it anyway: the route looks
up no row and never evaluates the scope predicate. -/
theorem C2_seg_scope_counterexample :
    hlsSegHandler (some { rootPath := photosU }) true = .ok
    ∧ inScope photosU privateU = false := by
  refine ⟨rfl, by decide⟩

/-- C2 (amended): video segments are served by `(key, filename)` existence
lookup gated only by authentication: an authenticated request is answered
by file existence alone, the response is independent of the principal's
scope, and the share route serves by existence with no check at all.  The
scope check of the parent item is not applied to segment requests. -/
theorem C2_seg_scope_amended (u v : Principal) (segExists : Bool) :
    hlsSegHandler (some u) segExists = (if segExists then .ok else .notFound)
    ∧ hlsSegHandler none segExists = .unauthorized
    ∧ hlsSegHandler (some u) segExists = hlsSegHandler (some v) segExists
    ∧ shareSegHandler segExists = (if segExists then .ok else .notFound) := by
  cases segExists <;> exact ⟨rfl, rfl, rfl, rfl⟩

/-- C3 counterexample: with the playlist not yet written and one encoder
already in flight for the `(source, height)` key, a second request spawns
a second encoder into the same output directory instead of polling: two
segmenter processes then run for the same key. -/
theorem C3_guard_counterexample :
    (rungRequest (rungRequest { playlistExists := false, encoders := 0 }).2).1
        = .spawnEncoder
    ∧ (rungRequest (rungRequest { playlistExists := false, encoders := 0 }).2).2.encoders
        = 2 := by
  exact ⟨rfl, rfl⟩

/-- C3 (amended): the segmenter has no in-memory in-flight guard: every
request that arrives while the playlist file does not yet exist spawns a
fresh encoder for the key (`n` such requests leave `n` concurrent
encoders); only once the playlist file exists are requests served without
spawning. -/
theorem C3_guard_amended (n k : Nat) :
    (runRequests n { playlistExists := false, encoders := k }).encoders = k + n
    ∧ ∀ s : HlsKeyState, s.playlistExists = true → rungRequest s = (.servePlaylist, s) := by
  constructor
  · induction n generalizing k with
    | zero => rfl
    | succ m ih =>
      show (runRequests m (rungRequest { playlistExists := false, encoders := k }).2).encoders
          = k + (m + 1)
      have step : (rungRequest { playlistExists := false, encoders := k }).2
          = { playlistExists := false, encoders := k + 1 } := rfl
      rw [step, ih (k + 1)]
      omega
  · intro s h
    unfold rungRequest
    rw [if_pos h]

/-- C3 witness: two requests before the playlist exists leave two
encoders; a request once the playlist exists serves it and spawns
nothing. -/
theorem C3_guard_witness :
    (runRequests 2 { playlistExists := false, encoders := 0 }).encoders = 0 + 2
    ∧ rungRequest { playlistExists := true, encoders := 1 } =
        (.servePlaylist, { playlistExists := true, encoders := 1 }) :=
  ⟨(C3_guard_amended 2 0).1, (C3_guard_amended 2 0).2 _ rfl⟩

/-- C4: after a rescan of prefix A, a row whose folder lies in the
half-open range `[A, A + '￿')` and whose path was not observed on disk
this pass is deleted, and a row whose path was observed is retained. -/
theorem C4_stale_pruning (A : JStr) (rows : List Row) (scanned : List JStr) (r : Row)
    (hmem : r ∈ rows) :
    (inScope A r.folder = true → scanned.contains r.path = false →
        r ∉ pruneUnder A rows scanned)
    ∧ (scanned.contains r.path = true → r ∈ pruneUnder A rows scanned) := by
  constructor
  · intro hin hnot hcontra
    have h2 := (List.mem_filter.mp hcontra).2
    rw [hin, hnot] at h2
    simp at h2
  · intro hsc
    refine List.mem_filter.mpr ⟨hmem, ?_⟩
    rw [hsc]
    simp

/-- C4 witness: rows for {A/1.jpg, A/2.jpg}, rescan of "A" observing only
A/1.jpg: the A/2.jpg row is deleted and the A/1.jpg row is retained. -/
theorem C4_stale_pruning_witness :
    ({ path := pathA2U, folder := folderAU } : Row) ∉
        pruneUnder folderAU
          [{ path := pathA1U, folder := folderAU },
           { path := pathA2U, folder := folderAU }] [pathA1U]
    ∧ ({ path := pathA1U, folder := folderAU } : Row) ∈
        pruneUnder folderAU
          [{ path := pathA1U, folder := folderAU },
           { path := pathA2U, folder := folderAU }] [pathA1U] :=
  ⟨(C4_stale_pruning folderAU
      [{ path := pathA1U, folder := folderAU }, { path := pathA2U, folder := folderAU }]
      [pathA1U] { path := pathA2U, folder := folderAU } (by decide)).1
      (by decide) (by decide),
   (C4_stale_pruning folderAU
      [{ path := pathA1U, folder := folderAU }, { path := pathA2U, folder := folderAU }]
      [pathA1U] { path := pathA1U, folder := folderAU } (by decide)).2 (by decide)⟩

/-- C5 counterexample: for a plain image that every stage fails to decode,
the first get-or-create call leaves no keyed output, so the second call —
with no source mutation in between — re-runs the chain, re-invoking the
external codec (one ffmpeg invocation, the count below), and returns the
original path rather than an already-existing keyed cache file. -/
theorem C5_idempotence_counterexample :
    (ensureThumb srcPlainBroken (ensureThumb srcPlainBroken fsEmpty).2.1).2.2 = 1
    ∧ (ensureThumb srcPlainBroken (ensureThumb srcPlainBroken fsEmpty).2.1).1
        = .original := by
  exact ⟨rfl, rfl⟩

/-- C5 (amended): whenever the first get-or-create call returns the keyed
cache file, a second call with no source mutation returns the byte-identical
keyed file immediately with zero external invocations; likewise for views
(for a video the view call returns the keyed thumbnail as poster, and its
second call is also free).  The guarantee is conditional on the first call
having produced the keyed output; when every stage fails it does not hold. -/
theorem C5_idempotence_amended (src : Src) (fs : FS) (c : ThumbSrc) (r : RendRes) :
    ((ensureThumb src fs).1 = .thumbFile c →
        ensureThumb src (ensureThumb src fs).2.1
          = (.thumbFile c, (ensureThumb src fs).2.1, 0))
    ∧ ((ensureView src fs).1 = r → r ≠ .original →
        ensureView src (ensureView src fs).2.1
          = (r, (ensureView src fs).2.1, 0)) := by
  constructor
  · intro h
    exact ensureThumb_cached src (ensureThumb src fs).2.1 c
      (ensureThumb_thumbOut src fs c h)
  · intro h hne
    cases hv : fs.viewOut with
    | some c0 =>
      have he := ensureView_cached src fs c0 hv
      rw [he] at h
      simp at h
      rw [he]
      simp
      rw [← h]
      exact ensureView_cached src fs c0 hv
    | none =>
      by_cases hvid : src.isVideo = true
      · have he := ensureView_video src fs hv hvid
        rw [he] at h ⊢
        rcases ensureThumb_res_cases src fs with ⟨c1, hc⟩ | horig
        · have hto := ensureThumb_thumbOut src fs c1 hc
          have hvo := ensureThumb_viewOut src fs
          rw [hv] at hvo
          rw [ensureView_video src (ensureThumb src fs).2.1 hvo hvid]
          rw [ensureThumb_cached src (ensureThumb src fs).2.1 c1 hto]
          have hr : r = .thumbFile c1 := by rw [← h, hc]
          rw [hr]
        · have hr : r = .original := by rw [← h, horig]
          exact absurd hr hne
      · have hnv : src.isVideo = false := by simpa using hvid
        rcases ensureView_res_cases src fs hv hnv with ⟨c1, hc⟩ | horig
        · have hvo := ensureView_viewOut src fs c1 hc
          rw [ensureView_cached src (ensureView src fs).2.1 c1 hvo]
          have hr : r = .viewFile c1 := by rw [← h, hc]
          rw [hr]
        · have hr : r = .original := by rw [← h, horig]
          exact absurd hr hne

/-- C5 witness: a source sharp decodes directly, starting from an empty
cache: the second thumbnail call and the second view call return the keyed
files immediately with zero external invocations. -/
theorem C5_idempotence_witness :
    ensureThumb srcSharpOk (ensureThumb srcSharpOk fsEmpty).2.1
      = (.thumbFile .direct, (ensureThumb srcSharpOk fsEmpty).2.1, 0)
    ∧ ensureView srcSharpOk (ensureView srcSharpOk fsEmpty).2.1
      = (.viewFile .direct, (ensureView srcSharpOk fsEmpty).2.1, 0) :=
  ⟨(C5_idempotence_amended srcSharpOk fsEmpty .direct (.viewFile .direct)).1 rfl,
   (C5_idempotence_amended srcSharpOk fsEmpty .direct (.viewFile .direct)).2 rfl
     (by decide)⟩

/-- C6: when every stage of the derived-asset fallback chain fails on a
fresh cache, `ensureThumb` and `ensureView` both return the original
source path rather than an error (every inner stage failure is caught;
the model's catch-all maps any inner error to the original). -/
theorem C6_fallback_original (src : Src) (fs : FS)
    (h1 : fs.thumbOut = none) (h2 : fs.viewOut = none) (h3 : fs.rawPrev = none)
    (h4 : fs.heicPrev = false) (h5 : fs.ffPrev = false)
    (hfail : allFailB src = true) :
    (ensureThumb src fs).1 = .original ∧ (ensureView src fs).1 = .original := by
  have hterr := thumbInner_error_of_fail src fs h3 h4 h5 hfail
  have hthumb := ensureThumb_of_inner_error src fs h1 hterr
  refine ⟨hthumb, ?_⟩
  by_cases hv : src.isVideo = true
  · rw [ensureView_video src fs h2 hv]
    exact hthumb
  · have hnv : src.isVideo = false := by simpa using hv
    have hserr := stillInner_error_of_fail src fs h3 h4 h5 hnv hfail
    unfold ensureView
    rw [h2, if_neg (by simp [hnv])]
    generalize hst : stillInner src fs = q at hserr ⊢
    obtain ⟨rr, fs1, n⟩ := q
    cases rr with
    | ok c1 => simp at hserr
    | error e => rfl

/-- C6 witness: the all-stages-fail plain image, on an empty cache. -/
theorem C6_fallback_original_witness :
    allFailB srcPlainBroken = true
    ∧ (ensureThumb srcPlainBroken fsEmpty).1 = .original
    ∧ (ensureView srcPlainBroken fsEmpty).1 = .original :=
  ⟨by decide,
   (C6_fallback_original srcPlainBroken fsEmpty rfl rfl rfl rfl rfl (by decide)).1,
   (C6_fallback_original srcPlainBroken fsEmpty rfl rfl rfl rfl rfl (by decide)).2⟩

/-- C7: the extractor tries the fixed ordered tag list and returns the
first candidate that both extracts and validates as decodable (stated
via `List.find?` over the ordered list); consequently a RAW source whose
first six tags are invalid and whose last tag (ThumbnailImage) is valid
yields a thumbnail derived from that tag, not a failure. -/
theorem C7_raw_tag_chain (src : Src) (fs : FS) (ex de : RawTag → Bool)
    (hv : src.isVideo = false) (hr : src.isRaw = true) (hsd : src.sharpDirectOk = false)
    (hout : fs.thumbOut = none) (hraw : fs.rawPrev = none)
    (hfail : ∀ t ∈ rawTags.dropLast, (src.extOk t && src.decOk t) = false)
    (hemit : src.extOk .ThumbnailImage = true) (hdec : src.decOk .ThumbnailImage = true) :
    (tryTags ex de rawTags).1 = rawTags.find? (fun t => ex t && de t)
    ∧ (ensureThumb src fs).1 = .thumbFile (.fromRaw .ThumbnailImage) := by
  refine ⟨tryTags_eq_find ex de rawTags, ?_⟩
  have e1 := hfail .JpgFromRaw (by decide)
  have e2 := hfail .PreviewImage (by decide)
  have e3 := hfail .OtherImage (by decide)
  have e4 := hfail .OtherImage1 (by decide)
  have e5 := hfail .OtherImage2 (by decide)
  have e6 := hfail .OtherImage3 (by decide)
  have htt : (tryTags src.extOk src.decOk rawTags).1 = some .ThumbnailImage := by
    rw [tryTags_eq_find]
    simp [rawTags, List.find?, e1, e2, e3, e4, e5, e6, hemit, hdec]
  unfold ensureThumb
  rw [hout]
  unfold ensureThumbInner
  rw [if_neg (by simp [hv])]
  unfold stillInner
  rw [if_neg (by simp [hsd]), if_pos hr]
  unfold ensureRawEmbeddedPreviewM
  rw [hraw]
  generalize htq : tryTags src.extOk src.decOk rawTags = q at htt ⊢
  obtain ⟨rr, n⟩ := q
  simp at htt
  subst htt
  rfl

/-- C7 witness: the RAW fixture whose first six tags are invalid and whose
ThumbnailImage tag is valid, on an empty cache. -/
theorem C7_raw_tag_chain_witness :
    (tryTags srcRawLastTag.extOk srcRawLastTag.decOk rawTags).1
      = rawTags.find? (fun t => srcRawLastTag.extOk t && srcRawLastTag.decOk t)
    ∧ (ensureThumb srcRawLastTag fsEmpty).1 = .thumbFile (.fromRaw .ThumbnailImage) :=
  ⟨(C7_raw_tag_chain srcRawLastTag fsEmpty srcRawLastTag.extOk srcRawLastTag.decOk
      rfl rfl rfl rfl rfl (by decide) rfl rfl).1,
   (C7_raw_tag_chain srcRawLastTag fsEmpty srcRawLastTag.extOk srcRawLastTag.decOk
      rfl rfl rfl rfl rfl (by decide) rfl rfl).2⟩

/-- C8: a start request while a job is Running is answered with a conflict
and the registry is unchanged (nothing is queued, no second job starts);
a start request while idle installs the single fresh Running job. -/
theorem C8_single_job (cur : IndexJob) (now : Nat) :
    (cur.running = true → postIndex cur now = (.conflict, cur))
    ∧ (cur.running = false →
        postIndex cur now =
          (.started { token := now, cancel := false, running := true },
           { token := now, cancel := false, running := true })) := by
  constructor
  · intro h
    unfold postIndex
    rw [if_pos h]
  · intro h
    unfold postIndex beginIndexJob
    rw [if_neg (by simp [h]), if_neg (by simp [h])]

/-- C8 witness: a running registry rejects a start; an idle registry
starts the job and becomes Running. -/
theorem C8_single_job_witness :
    postIndex { token := 5, cancel := false, running := true } 9 =
        (.conflict, { token := 5, cancel := false, running := true })
    ∧ postIndex { token := 5, cancel := false, running := false } 9 =
        (.started { token := 9, cancel := false, running := true },
         { token := 9, cancel := false, running := true }) :=
  ⟨(C8_single_job { token := 5, cancel := false, running := true } 9).1 rfl,
   (C8_single_job { token := 5, cancel := false, running := false } 9).2 rfl⟩

/-- C9 evaluation at the failing input: only directory "a" exists; a
rescan of "a/b/c" (both "a/b/c" and its parent "a/b" are gone, e.g. after
a rename of "a/b") does not walk up to the nearest existing ancestor "a"
— which, as the later conjuncts show, exists and is a proper ancestor —
but scans the missing prefix "a/b/c" itself, so the renamed content is
not discovered. -/
theorem C9_walkup_eval :
    resolveScanTarget [dirAU] dirABCU = .under dirABCU
    ∧ ([dirAU].contains dirABCU = false)
    ∧ ([dirAU].contains (parentOf dirABCU) = false)
    ∧ (dirAU ++ [47]) <+: dirABCU
    ∧ [dirAU].contains dirAU = true := by
  refine ⟨by decide, by decide, by decide, by decide, by decide⟩

/-- C10: when cancellation is observed at iteration k of a full scan, the
stale-row pruning still runs over the entire index afterwards, so every
row whose path was not visited before the cancellation point is deleted —
including rows whose files still exist on disk but were never reached. -/
theorem C10_cancel_prunes_unvisited (rows0 : List Row) (entries : List Entry) (k : Nat)
    (p : JStr) (h : (scannedPrefix entries k).contains p = false) :
    ∀ r ∈ scanAndIndexModel rows0 entries k, r.path ≠ p := by
  intro r hr hp
  simp only [scanAndIndexModel, pruneAll] at hr
  have h2 := (List.mem_filter.mp hr).2
  rw [hp] at h2
  rw [h] at h2
  exact Bool.false_ne_true h2

/-- C10 witness: two files on disk, cancel observed after the first is
scanned: the indexed row of the second file — still present on disk — is
deleted by the pruning pass. -/
theorem C10_cancel_prunes_witness :
    ¬ (({ path := pathA2U, folder := folderAU } : Row) ∈
        scanAndIndexModel
          [{ path := pathA1U, folder := folderAU },
           { path := pathA2U, folder := folderAU }]
          [{ path := pathA1U, folder := folderAU, isMedia := true, statOk := true },
           { path := pathA2U, folder := folderAU, isMedia := true, statOk := true }] 1) :=
  fun hmem =>
    C10_cancel_prunes_unvisited
      [{ path := pathA1U, folder := folderAU }, { path := pathA2U, folder := folderAU }]
      [{ path := pathA1U, folder := folderAU, isMedia := true, statOk := true },
       { path := pathA2U, folder := folderAU, isMedia := true, statOk := true }] 1
      pathA2U (by decide) { path := pathA2U, folder := folderAU } hmem rfl

end LiquidPhotos
